import Mathlib

/-!
Verification of the YOLO detection application (Streamlit front end over an
ultralytics YOLO model).  The Python sources are shallowly embedded below:

* `src/config.py`           — class registry and `Config.get_class_name`
* `src/services/detection_service.py`
    — `BaseDetector._run_inference`, `BaseDetector._extract_statistics`,
      `VideoDetector._process_frames`, `VideoDetector._merge_statistics`,
      `VideoDetector._update_progress`, `VideoDetector._convert_to_h264`,
      and the tail of `VideoDetector.detect`
* `src/services/model_service.py` — `ModelService.load_model` (cached by
  Streamlit's `st.cache_resource`, whose documented contract — memoise the
  return value by argument — is modelled as an explicit keyed cache)
* `src/components/video_processor.py`
    — `VideoProcessorComponent._cleanup_temp_files`

Python dictionaries are modelled as insertion-ordered association lists
(`List (String × ℕ)`); Python exceptions as `Option` (`none` = the call
raised); external collaborators (the YOLO `predict` call, `cv2` frame
reads, `ffmpeg`, `os.unlink`) as oracle parameters.
-/

namespace YoloApp

/-! ## Data model (`src/config.py`) -/

/-- `DetectionClass` record from `src/config.py`: id, display name, emoji. -/
structure DetectionClass where
  id : Nat
  name : String
  emoji : String
deriving DecidableEq, Repr

/-- `Config.DETECTION_CLASSES`: the configured class registry
(`{0: DetectionClass(0, "Human", "👤"), 1: DetectionClass(1, "Car", "🚗")}`),
modelled as an association list keyed by class identifier. -/
def DETECTION_CLASSES : List (Nat × DetectionClass) :=
  [(0, ⟨0, "Human", "👤"⟩), (1, ⟨1, "Car", "🚗"⟩)]

/-- `dict.get` on the registry (`cls.DETECTION_CLASSES.get(class_id)`). -/
def lookupClass (class_id : Nat) : Option DetectionClass :=
  (DETECTION_CLASSES.find? (fun p => p.1 == class_id)).map Prod.snd

/-- `Config.get_class_name`: display name of a class identifier, falling back
to the synthesized placeholder `f"Class {class_id}"` when the identifier is
not in the registry. -/
def get_class_name (class_id : Nat) : String :=
  match lookupClass class_id with
  | some detection_class => detection_class.name
  | none => "Class " ++ toString class_id

/-! ## Statistics tables

A statistics table (`Dict[str, int]` in the source) is an insertion-ordered
association list from class display name to count. -/

/-- A Python `Dict[str, int]` as an insertion-ordered association list. -/
abbrev Stats := List (String × Nat)

/-- `d.get(k, 0)`: the value stored at key `k`, or `0` when absent. -/
def getD (s : Stats) (k : String) : Nat :=
  match s.find? (fun p => p.1 == k) with
  | some p => p.2
  | none => 0

/-- `d[k] = v`: update the entry at `k` in place when present (Python dict
keys are unique, so the first occurrence is the only one), otherwise append
it at the end (Python dicts keep insertion order). -/
def setKey (s : Stats) (k : String) (v : Nat) : Stats :=
  match s with
  | [] => [(k, v)]
  | p :: rest => if p.1 == k then (k, v) :: rest else p :: setKey rest k v

/-- A table is well formed when its keys are pairwise distinct — true of
every Python dict by construction. -/
def WFStats (s : Stats) : Prop := (s.map Prod.fst).Nodup

instance (s : Stats) : Decidable (WFStats s) := by
  unfold WFStats; infer_instance

/-! ## Detection boxes and statistics extraction
(`BaseDetector._extract_statistics`) -/

/-- A detection box as consumed from the inference engine: class identifier
and confidence score (coordinates are never read by this code and are
omitted). -/
structure Box where
  cls : Nat
  conf : ℚ
deriving DecidableEq, Repr

/-- `BaseDetector._extract_statistics`: iterate the detection boxes; for each
box resolve `int(box.cls[0])` through `Config.get_class_name` and increment
the counter keyed by that display name (`stats[class_name] =
stats.get(class_name, 0) + 1`), starting from the empty dict (the
`detections is None or len(detections) == 0` early return is the `[]`
case of the fold). -/
def extract_statistics (detections : List Box) : Stats :=
  detections.foldl
    (fun stats box =>
      let class_name := get_class_name box.cls
      setKey stats class_name (getD stats class_name + 1))
    []

/-! ### Association-list lemmas -/

theorem getD_nil (k : String) : getD [] k = 0 := rfl

theorem getD_setKey_self (s : Stats) (k : String) (v : Nat) :
    getD (setKey s k v) k = v := by
  induction s with
  | nil => simp [setKey, getD, List.find?]
  | cons hd tl ih =>
    by_cases hk : hd.1 = k
    · have hk2 : (hd.1 == k) = true := beq_iff_eq.mpr hk
      simp [setKey, hk2, getD, List.find?]
    · have hk2 : (hd.1 == k) = false := beq_false_of_ne hk
      simpa [setKey, hk2, getD, List.find?] using ih

theorem getD_setKey_ne (s : Stats) (k name : String) (v : Nat)
    (h : name ≠ k) : getD (setKey s k v) name = getD s name := by
  have hkn : (k == name) = false := beq_false_of_ne (fun hkn => h (hkn ▸ rfl))
  induction s with
  | nil => simp [setKey, getD, List.find?, hkn]
  | cons hd tl ih =>
    by_cases hk : hd.1 = k
    · have hk2 : (hd.1 == k) = true := beq_iff_eq.mpr hk
      have hdn : (hd.1 == name) = false := by rw [hk]; exact hkn
      simp [setKey, hk2, getD, List.find?, hkn, hdn]
    · have hk2 : (hd.1 == k) = false := beq_false_of_ne hk
      cases hbe : hd.1 == name
      · simpa [setKey, hk2, getD, List.find?, hbe] using ih
      · simp [setKey, hk2, getD, List.find?, hbe]

/-- Every entry of `setKey s k v` is either the written entry `(k, v)` or an
entry of `s`. -/
theorem mem_setKey (s : Stats) (k : String) (v : Nat) (p : String × Nat)
    (hp : p ∈ setKey s k v) : p = (k, v) ∨ p ∈ s := by
  induction s with
  | nil => simpa [setKey] using hp
  | cons hd tl ih =>
    by_cases hk : hd.1 = k
    · have hk2 : (hd.1 == k) = true := beq_iff_eq.mpr hk
      simp [setKey, hk2] at hp
      rcases hp with hp | hp
      · exact Or.inl (by simp [hp])
      · exact Or.inr (List.mem_cons_of_mem _ hp)
    · have hk2 : (hd.1 == k) = false := beq_false_of_ne hk
      simp [setKey, hk2] at hp
      rcases hp with hp | hp
      · exact Or.inr (by simp [hp])
      · rcases ih hp with hp2 | hp2
        · exact Or.inl hp2
        · exact Or.inr (List.mem_cons_of_mem _ hp2)

/-- The keys of `setKey s k v` are among `k` and the keys of `s`. -/
theorem keys_setKey_subset (s : Stats) (k : String) (v : Nat) (a : String)
    (ha : a ∈ (setKey s k v).map Prod.fst) : a = k ∨ a ∈ s.map Prod.fst := by
  rcases List.mem_map.mp ha with ⟨p, hp, hpa⟩
  rcases mem_setKey s k v p hp with h | h
  · left; rw [← hpa, h]
  · right; exact List.mem_map.mpr ⟨p, h, hpa⟩

/-- `setKey` preserves key distinctness. -/
theorem wf_setKey (s : Stats) (k : String) (v : Nat) (hs : WFStats s) :
    WFStats (setKey s k v) := by
  induction s with
  | nil => simp [setKey, WFStats]
  | cons hd tl ih =>
    unfold WFStats at hs
    simp only [List.map_cons, List.nodup_cons] at hs
    by_cases hk : hd.1 = k
    · have hk2 : (hd.1 == k) = true := beq_iff_eq.mpr hk
      unfold WFStats
      simp only [setKey, hk2]
      simp only [if_true, List.map_cons, List.nodup_cons]
      exact ⟨fun hmem => hs.1 (hk ▸ hmem), hs.2⟩
    · have hk2 : (hd.1 == k) = false := beq_false_of_ne hk
      unfold WFStats
      simp only [setKey, hk2]
      simp only [Bool.false_eq_true, if_false, List.map_cons, List.nodup_cons]
      refine ⟨fun hmem => ?_, ih hs.2⟩
      rcases keys_setKey_subset tl k v hd.1 hmem with h | h
      · exact hk h
      · exact hs.1 h

/-- The running count kept by `_extract_statistics` is exact: folding the
counting step over any box list adds, at every key, the number of boxes
resolving to that key. -/
theorem getD_extract_fold (boxes : List Box) (s : Stats) (name : String) :
    getD (boxes.foldl
      (fun stats box =>
        let class_name := get_class_name box.cls
        setKey stats class_name (getD stats class_name + 1)) s) name =
      getD s name + boxes.countP (fun b => get_class_name b.cls == name) := by
  induction boxes generalizing s with
  | nil => simp
  | cons b bs ih =>
    simp only [List.foldl_cons, List.countP_cons]
    rw [ih]
    by_cases hb : get_class_name b.cls = name
    · subst hb
      rw [getD_setKey_self]
      simp [Nat.add_assoc, Nat.add_comm 1]
    · have hb2 : (get_class_name b.cls == name) = false := beq_false_of_ne hb
      rw [getD_setKey_ne _ _ _ _ (fun he => hb he.symm)]
      simp [hb2]

/-- Count law for `_extract_statistics`: the table's value at any display
name is the number of boxes whose class identifier resolves to it. -/
theorem getD_extract_statistics (boxes : List Box) (name : String) :
    getD (extract_statistics boxes) name =
      boxes.countP (fun b => get_class_name b.cls == name) := by
  unfold extract_statistics
  rw [getD_extract_fold]
  simp [getD]

/-- `_extract_statistics` starts from the empty dict and only writes through
`setKey`, so its table always has pairwise-distinct keys. -/
theorem wf_extract_statistics (boxes : List Box) :
    WFStats (extract_statistics boxes) := by
  unfold extract_statistics
  have hgen : ∀ (bs : List Box) (s : Stats), WFStats s →
      WFStats (bs.foldl
        (fun stats box =>
          let class_name := get_class_name box.cls
          setKey stats class_name (getD stats class_name + 1)) s) := by
    intro bs
    induction bs with
    | nil => intro s hs; exact hs
    | cons b rest ih =>
      intro s hs
      exact ih _ (wf_setKey _ _ _ hs)
  exact hgen boxes [] (by simp [WFStats])

/-- Every count stored by `_extract_statistics` is strictly positive: the
only writes are `stats.get(class_name, 0) + 1`. -/
theorem pos_extract_statistics (boxes : List Box) :
    ∀ p ∈ extract_statistics boxes, 0 < p.2 := by
  unfold extract_statistics
  have hgen : ∀ (bs : List Box) (s : Stats), (∀ p ∈ s, 0 < p.2) →
      ∀ p ∈ (bs.foldl
        (fun stats box =>
          let class_name := get_class_name box.cls
          setKey stats class_name (getD stats class_name + 1)) s), 0 < p.2 := by
    intro bs
    induction bs with
    | nil => intro s hs; exact hs
    | cons b rest ih =>
      intro s hs
      refine ih _ (fun p hp => ?_)
      rcases mem_setKey _ _ _ p hp with h | h
      · rw [h]; exact Nat.succ_pos _
      · exact hs p h
  exact hgen boxes [] (by simp)

/-- In a table whose entries are all positive, a name is a key exactly when
its stored count is positive. -/
theorem mem_keys_iff_getD_pos (s : Stats) (hs : ∀ p ∈ s, 0 < p.2)
    (name : String) : name ∈ s.map Prod.fst ↔ 0 < getD s name := by
  induction s with
  | nil => simp [getD, List.find?]
  | cons hd tl ih =>
    cases hbe : hd.1 == name
    · have hne : hd.1 ≠ name := fun he => by simp [he] at hbe
      rw [List.map_cons, List.mem_cons]
      have := ih (fun p hp => hs p (List.mem_cons_of_mem _ hp))
      simp only [getD, List.find?, hbe]
      constructor
      · intro h
        rcases h with h | h
        · exact absurd h.symm hne
        · exact (this.mp h)
      · intro h
        exact Or.inr (this.mpr h)
    · have heq : hd.1 = name := beq_iff_eq.mp hbe
      simp only [getD, List.find?, hbe]
      constructor
      · intro _; exact hs hd (List.mem_cons_self _ _)
      · intro _; exact List.mem_cons.mpr (Or.inl heq.symm)

/-! ## Statistics merging (`VideoDetector._merge_statistics`) -/

/-- `VideoDetector._merge_statistics`: for every `(class_name, count)` entry
of the frame table, `total[class_name] = total.get(class_name, 0) + count`.
The source mutates `total` in place; the embedding returns the updated
table. -/
def merge_statistics (total : Stats) (frame_stats : Stats) : Stats :=
  frame_stats.foldl (fun t p => setKey t p.1 (getD t p.1 + p.2)) total

/-- The running cumulative table of `VideoDetector._process_frames`: starting
from the empty dict, merge each frame table in order. -/
def cumulative_statistics (tables : List Stats) : Stats :=
  tables.foldl merge_statistics []

/-- Total weight a raw association list carries at one key (duplicates
included); coincides with `getD` on well-formed tables. -/
def sumFor (s : Stats) (name : String) : Nat :=
  (s.map (fun p => if p.1 = name then p.2 else 0)).sum

theorem sumFor_nil (name : String) : sumFor [] name = 0 := rfl

theorem sumFor_cons (p : String × Nat) (s : Stats) (name : String) :
    sumFor (p :: s) name = (if p.1 = name then p.2 else 0) + sumFor s name := by
  simp [sumFor]

theorem sumFor_eq_zero_of_not_mem (s : Stats) (name : String)
    (h : name ∉ s.map Prod.fst) : sumFor s name = 0 := by
  induction s with
  | nil => rfl
  | cons hd tl ih =>
    simp only [List.map_cons, List.mem_cons, not_or] at h
    rw [sumFor_cons, if_neg (fun he => h.1 he.symm), ih h.2]

theorem sumFor_eq_getD_of_wf (s : Stats) (name : String) (hs : WFStats s) :
    sumFor s name = getD s name := by
  induction s with
  | nil => rfl
  | cons hd tl ih =>
    unfold WFStats at hs
    simp only [List.map_cons, List.nodup_cons] at hs
    by_cases he : hd.1 = name
    · rw [sumFor_cons, if_pos he,
        sumFor_eq_zero_of_not_mem tl name (he ▸ hs.1), Nat.add_zero]
      have hbe : (hd.1 == name) = true := beq_iff_eq.mpr he
      simp [getD, List.find?, hbe]
    · have hbe : (hd.1 == name) = false := beq_false_of_ne he
      rw [sumFor_cons, if_neg he, Nat.zero_add, ih hs.2]
      simp [getD, List.find?, hbe]

/-- Merging adds, at every key, exactly the weight the frame table carries
at that key — no increment is dropped or duplicated. -/
theorem getD_merge_statistics (total frame_stats : Stats) (name : String) :
    getD (merge_statistics total frame_stats) name =
      getD total name + sumFor frame_stats name := by
  induction frame_stats generalizing total with
  | nil => simp [merge_statistics, sumFor]
  | cons hd tl ih =>
    rw [sumFor_cons]
    show getD (merge_statistics (setKey total hd.1 (getD total hd.1 + hd.2)) tl) name = _
    rw [ih]
    by_cases he : hd.1 = name
    · rw [if_pos he, he, getD_setKey_self]
      omega
    · rw [if_neg he, getD_setKey_ne _ _ _ _ (fun h2 => he h2.symm)]
      omega

/-- On a well-formed frame table, merging adds that table's `getD` value. -/
theorem getD_merge_statistics_wf (total frame_stats : Stats) (name : String)
    (hf : WFStats frame_stats) :
    getD (merge_statistics total frame_stats) name =
      getD total name + getD frame_stats name := by
  rw [getD_merge_statistics, sumFor_eq_getD_of_wf _ _ hf]

/-- Folding `_merge_statistics` over a list of well-formed frame tables adds
each table's count at every key. -/
theorem getD_foldl_merge (tables : List Stats) (acc : Stats) (name : String)
    (h : ∀ t ∈ tables, WFStats t) :
    getD (tables.foldl merge_statistics acc) name =
      getD acc name + (tables.map (fun t => getD t name)).sum := by
  induction tables generalizing acc with
  | nil => simp
  | cons t ts ih =>
    simp only [List.foldl_cons, List.map_cons, List.sum_cons]
    rw [ih _ (fun u hu => h u (List.mem_cons_of_mem _ hu)),
      getD_merge_statistics_wf _ _ _ (h t (List.mem_cons_self _ _))]
    omega

/-- Merging never removes weight: the merged table dominates the running
total at every key. -/
theorem getD_merge_statistics_ge (total frame_stats : Stats) (name : String) :
    getD total name ≤ getD (merge_statistics total frame_stats) name := by
  rw [getD_merge_statistics]
  exact Nat.le_add_right _ _

/-- Merging two all-positive tables yields an all-positive table: no
zero-count entry is ever introduced. -/
theorem pos_merge_statistics (total frame_stats : Stats)
    (ht : ∀ p ∈ total, 0 < p.2) (hf : ∀ p ∈ frame_stats, 0 < p.2) :
    ∀ p ∈ merge_statistics total frame_stats, 0 < p.2 := by
  induction frame_stats generalizing total with
  | nil => exact ht
  | cons hd tl ih =>
    show ∀ p ∈ merge_statistics (setKey total hd.1 (getD total hd.1 + hd.2)) tl, 0 < p.2
    refine ih _ (fun p hp => ?_) (fun p hp => hf p (List.mem_cons_of_mem _ hp))
    rcases mem_setKey _ _ _ p hp with h | h
    · rw [h]
      have : 0 < hd.2 := hf hd (List.mem_cons_self _ _)
      omega
    · exact ht p h

/-! ## Inference (`BaseDetector._run_inference`)

The YOLO model's `predict` call is an external collaborator; it is modelled
as an oracle taking the frame, the confidence threshold, and the class
filter actually passed (`None` or a non-empty identifier list), and
returning the detection boxes together with the rendered overlay
(`results[0].plot()`).  Frames are opaque tokens (`ℕ`). -/

/-- An opaque decoded frame. -/
abbrev Frame := Nat

/-- What one `model.predict(...)` call returns: `results[0].boxes` and
`results[0].plot()`. -/
structure PredictResult where
  boxes : List Box
  plotted : Frame
deriving DecidableEq, Repr

/-- The model's `predict` entry point, as an oracle. -/
abbrev PredictFn := Frame → ℚ → Option (List Nat) → PredictResult

/-- The class-filter argument built by `_run_inference`:
`classes=self._classes if self._classes else None`.  `None` and the empty
list are both falsy in Python, so both collapse to `None`. -/
def classesArg (classes : Option (List Nat)) : Option (List Nat) :=
  match classes with
  | none => none
  | some [] => none
  | some (c :: cs) => some (c :: cs)

/-- `BaseDetector._run_inference`: one `predict` call at the configured
confidence and class filter; returns the rendered overlay and the statistics
extracted from the returned boxes.  No further filtering happens locally. -/
def run_inference (predict : PredictFn) (confidence : ℚ)
    (classes : Option (List Nat)) (frame : Frame) : Frame × Stats :=
  let results := predict frame confidence (classesArg classes)
  (results.plotted, extract_statistics results.boxes)

/-! ## Progress reporting (`VideoDetector._update_progress`) -/

/-- `VideoDetector._update_progress`: computes `progress = current / total`.
Both are Python `int`s, so `total = 0` raises `ZeroDivisionError` (`none`);
otherwise the true-division quotient is reported. -/
def update_progress (current total : Nat) : Option ℚ :=
  if total = 0 then none
  else some ((current : ℚ) / (total : ℚ))

/-- The sequence of progress values reported while processing `K` frames
with advisory total-frame count `total`: `_update_progress` is called with
`frame_count = 1, 2, …, K`. -/
def progress_values (K total : Nat) : List (Option ℚ) :=
  (List.range K).map (fun i => update_progress (i + 1) total)

/-! ## The drain loop (`VideoDetector._process_frames`)

`cv2.VideoCapture` is modelled as the list of readable frames: `cap.read()`
returns the next frame with `ret=True`, or `ret=False` once the list is
exhausted (whereupon the loop breaks).  `cap.isOpened()` stays true for the
whole loop (the capture is released only afterwards).  The writer is
modelled by the list of frames written in order.  A `ZeroDivisionError`
raised by `_update_progress` propagates and aborts the call (`none`). -/

/-- One pass of the `while` loop body, recursing on the remaining readable
frames.  Mirrors `_process_frames` line by line: read a frame (or break),
run inference, write the annotated frame, merge the frame statistics,
increment `frame_count`, update the progress bar. -/
def process_frames_go (predict : PredictFn) (confidence : ℚ)
    (classes : Option (List Nat)) :
    List Frame → Nat → Nat → Stats → Option (List Frame × Stats)
  | [], _, _, total_stats => some ([], total_stats)
  | frame :: rest, frame_count, total_frames, total_stats =>
    let r := run_inference predict confidence classes frame
    let total_stats2 := merge_statistics total_stats r.2
    match update_progress (frame_count + 1) total_frames with
    | none => none
    | some _ =>
      match process_frames_go predict confidence classes rest
          (frame_count + 1) total_frames total_stats2 with
      | none => none
      | some (written, final_stats) => some (r.1 :: written, final_stats)

/-- `VideoDetector._process_frames`: drain every readable frame, starting
with `total_stats = {}` and `frame_count = 0`; returns the frames written to
the output container (in order) and the cumulative statistics, or `none`
when a `ZeroDivisionError` from `_update_progress` aborts the call. -/
def process_frames (predict : PredictFn) (confidence : ℚ)
    (classes : Option (List Nat)) (frames : List Frame) (total_frames : Nat) :
    Option (List Frame × Stats) :=
  process_frames_go predict confidence classes frames 0 total_frames []

/-! ## Transcoding (`VideoDetector._convert_to_h264`)

The filesystem is a map from path to file bytes; `ffmpeg` is an oracle on
the input file's bytes.  `subprocess.run(..., check=True)` raising
`FileNotFoundError` (tool absent) or `CalledProcessError` (non-zero exit)
is caught, and `shutil.copy(input_path, output_path)` runs instead. -/

/-- File contents. -/
abbrev Bytes := List Nat

/-- A filesystem: path to contents, `none` when the path does not exist. -/
abbrev FS := String → Option Bytes

/-- Outcome of invoking the external `ffmpeg` process. -/
inductive TranscodeOutcome where
  | success (transcoded : Bytes)
  | toolMissing
  | exitFailure
deriving DecidableEq, Repr

/-- `VideoDetector._convert_to_h264`: try `ffmpeg` on the input file at
`input_path`, writing `output_path`; on `CalledProcessError` or
`FileNotFoundError`, copy the input file verbatim to `output_path`.  Returns
the updated filesystem and the returned `output_path`.  (The input file
always exists here: it is the container the drain loop just wrote and
released.) -/
def convert_to_h264 (fs : FS) (ffmpeg : Bytes → TranscodeOutcome)
    (input_path output_path : String) : FS × String :=
  let input_bytes := (fs input_path).getD []
  let output_bytes :=
    match ffmpeg input_bytes with
    | .success transcoded => transcoded
    | .toolMissing => input_bytes
    | .exitFailure => input_bytes
  (fun p => if p = output_path then some output_bytes else fs p, output_path)

/-! ## Cleanup (`VideoProcessorComponent._cleanup_temp_files` and the tail
of `VideoDetector.detect`)

`os.unlink` may fail (permission error, file locked …); the oracle
`unlinkOk` says whether deleting a given path succeeds.  The component's
cleanup wraps each deletion in `try: … except Exception: pass`; the video
pipeline's intermediate deletion is not wrapped at all. -/

/-- `VideoProcessorComponent._cleanup_temp_files`: for each recorded path,
`try: if os.path.exists(p): os.unlink(p) except Exception: pass`, then
`self._temp_files.clear()`.  A failed deletion leaves the file in place and
is swallowed; the call itself always completes (its type is not fallible). -/
def cleanup_step (unlinkOk : String → Bool) (fs : FS) (p : String) : FS :=
  match fs p with
  | none => fs
  | some _ =>
    if unlinkOk p then (fun q => if q = p then none else fs q) else fs

def cleanup_temp_files (unlinkOk : String → Bool) (fs : FS)
    (temp_files : List String) : FS × List String :=
  (temp_files.foldl (cleanup_step unlinkOk) fs, [])

/-- The tail of `VideoDetector.detect` after `_convert_to_h264`:
`if os.path.exists(temp_output): os.unlink(temp_output)` with no
`try`/`except`, then return the result.  A deletion failure raises and the
whole request aborts (`none`). -/
def video_detect_finalize (unlinkOk : String → Bool) (fs : FS)
    (temp_output final_output : String) : Option (FS × String) :=
  match fs temp_output with
  | none => some (fs, final_output)
  | some _ =>
    if unlinkOk temp_output then
      some (fun q => if q = temp_output then none else fs q, final_output)
    else
      none

/-! ## Model loading (`ModelService.load_model`)

The `st.cache_resource` decorator memoises `load_model` by its argument;
this is modelled as an explicit cache keyed by `model_path`.  The body
(`YOLO(model_path)` then `model.to(device)`) is the oracle `deserialize`
applied to the path and the fixed device string; `load_count` counts how
many times that body actually ran. -/

/-- A loaded, device-bound model handle. -/
abbrev ModelHandle := Nat

/-- The external deserialization/binding environment: `YOLO(path).to(device)`
as an oracle, plus the device chosen by `ModelService.get_device`. -/
structure ModelEnv where
  deserialize : String → String → ModelHandle
  device : String

/-- The memoisation state installed by `st.cache_resource`. -/
structure CacheState where
  cache : List (String × ModelHandle)
  load_count : Nat
deriving DecidableEq, Repr

/-- `ModelService.load_model` under `st.cache_resource`: a hit returns the
cached handle unchanged; a miss runs the body (deserialize + bind, counted
by `load_count`) and caches the result under `model_path`. -/
def load_model (env : ModelEnv) (s : CacheState) (model_path : String) :
    ModelHandle × CacheState :=
  match s.cache.find? (fun p => p.1 == model_path) with
  | some p => (p.2, s)
  | none =>
    let m := env.deserialize model_path env.device
    (m, ⟨s.cache ++ [(model_path, m)], s.load_count + 1⟩)

/-! ## Claim theorems -/

/-- A string starting with the six characters `"Class "` is never equal to a
string shorter than six characters. -/
theorem class_prefix_ne (s t : String) (h : t.length < 6) :
    "Class " ++ s ≠ t := by
  intro hc
  have h2 := congrArg String.length hc
  rw [String.length_append] at h2
  have h6 : ("Class ").length = 6 := rfl
  omega

/-- The synthesized placeholder is at least six characters long, so it can
never collide with a registered display name ("Human", "Car"). -/
theorem class_placeholder_ne_registry (class_id : Nat) :
    ∀ entry ∈ DETECTION_CLASSES, "Class " ++ toString class_id ≠ entry.2.name := by
  intro entry hentry
  fin_cases hentry <;> exact class_prefix_ne _ _ (by decide)

/-- Claim C1: the statistics table built by `_extract_statistics` counts, at
every display name, exactly the boxes whose class identifier resolves to
that name through `Config.get_class_name`; an identifier missing from the
registry resolves to the placeholder `"Class N"`, which differs from every
registered display name, so the lookup is total. -/
theorem C1_statistics_count_and_placeholder (boxes : List Box) (name : String)
    (class_id : Nat) (h : lookupClass class_id = none) :
    getD (extract_statistics boxes) name =
      boxes.countP (fun b => get_class_name b.cls == name)
    ∧ get_class_name class_id = "Class " ++ toString class_id
    ∧ ∀ entry ∈ DETECTION_CLASSES, get_class_name class_id ≠ entry.2.name := by
  have hplaceholder : get_class_name class_id = "Class " ++ toString class_id := by
    unfold get_class_name
    rw [h]
  refine ⟨getD_extract_statistics boxes name, hplaceholder, ?_⟩
  rw [hplaceholder]
  exact class_placeholder_ne_registry class_id

/-- Witness for C1 at a concrete input: two Human boxes, one Car box, one
box of the unregistered class 7. -/
theorem C1_witness :
    lookupClass 7 = none
    ∧ (getD (extract_statistics
          ([⟨0, 9/10⟩, ⟨0, 8/10⟩, ⟨1, 7/10⟩, ⟨7, 6/10⟩] : List Box)) "Human" =
        ([⟨0, 9/10⟩, ⟨0, 8/10⟩, ⟨1, 7/10⟩, ⟨7, 6/10⟩] : List Box).countP
          (fun b => get_class_name b.cls == "Human")
      ∧ get_class_name 7 = "Class " ++ toString 7
      ∧ ∀ entry ∈ DETECTION_CLASSES, get_class_name 7 ≠ entry.2.name) :=
  ⟨by decide,
   C1_statistics_count_and_placeholder
     ([⟨0, 9/10⟩, ⟨0, 8/10⟩, ⟨1, 7/10⟩, ⟨7, 6/10⟩] : List Box) "Human" 7
     (by decide)⟩

/-- Claim C2: the cumulative table built by folding `_merge_statistics` over
the per-frame tables maps every class name to exactly the sum of its
per-frame counts (absence counting as zero); and every per-frame table the
detector actually produces is well formed (distinct keys), so the
hypothesis is met along the real pipeline. -/
theorem C2_cumulative_merge_exact (tables : List Stats) (name : String)
    (h : ∀ t ∈ tables, WFStats t) :
    getD (cumulative_statistics tables) name =
      (tables.map (fun t => getD t name)).sum
    ∧ ∀ boxes : List Box, WFStats (extract_statistics boxes) := by
  refine ⟨?_, wf_extract_statistics⟩
  unfold cumulative_statistics
  rw [getD_foldl_merge _ _ _ h]
  simp [getD]

/-- Witness for C2 at concrete per-frame tables. -/
theorem C2_witness :
    (∀ t ∈ ([[("Car", 1)], [("Human", 2), ("Car", 3)], []] : List Stats),
      WFStats t)
    ∧ (getD (cumulative_statistics
          [[("Car", 1)], [("Human", 2), ("Car", 3)], []]) "Car" =
        (([[("Car", 1)], [("Human", 2), ("Car", 3)], []] : List Stats).map
          (fun t => getD t "Car")).sum
      ∧ ∀ boxes : List Box, WFStats (extract_statistics boxes)) :=
  ⟨by decide,
   C2_cumulative_merge_exact
     [[("Car", 1)], [("Human", 2), ("Car", 3)], []] "Car" (by decide)⟩

/-- Claim C3: with an empty selected-class list, `_run_inference` passes
`None` (no class restriction) to `predict`, returns the statistics of all
returned boxes unfiltered, and every class present in those boxes therefore
appears in the statistics with a positive count. -/
theorem C3_empty_selection_passes_through (predict : PredictFn)
    (confidence : ℚ) (frame : Frame) :
    classesArg (some []) = none
    ∧ run_inference predict confidence (some []) frame =
        ((predict frame confidence none).plotted,
         extract_statistics (predict frame confidence none).boxes)
    ∧ ∀ b ∈ (predict frame confidence none).boxes,
        0 < getD (run_inference predict confidence (some []) frame).2
          (get_class_name b.cls) := by
  refine ⟨rfl, rfl, ?_⟩
  intro b hb
  show 0 < getD (extract_statistics (predict frame confidence none).boxes)
    (get_class_name b.cls)
  rw [getD_extract_statistics, List.countP_pos_iff]
  exact ⟨b, hb, by simp⟩

/-- A concrete stub for the external `predict` call: one Human box on every
frame, the overlay tagged by adding 100 to the frame token. -/
def predictStub : PredictFn := fun frame _ _ => ⟨[⟨0, 9/10⟩], frame + 100⟩

/-- Witness for C3 with the stub model at a concrete frame. -/
theorem C3_witness :
    classesArg (some []) = none
    ∧ run_inference predictStub (1/2) (some []) 5 =
        ((predictStub 5 (1/2) none).plotted,
         extract_statistics (predictStub 5 (1/2) none).boxes)
    ∧ ∀ b ∈ (predictStub 5 (1/2) none).boxes,
        0 < getD (run_inference predictStub (1/2) (some []) 5).2
          (get_class_name b.cls) :=
  C3_empty_selection_passes_through predictStub (1/2) 5

/-- Claim C4: false of the code — `_update_progress` computes
`current / total` with no guard, so the very first progress update of a
video whose advisory frame count is reported as `0` raises
`ZeroDivisionError` (`none`): the progress-update step is not total for
`total = 0` and does not degrade gracefully. -/
theorem C4_progress_division_by_zero :
    update_progress 1 0 = none := rfl

/-- Claim C5 counterexample: for a 2-frame video whose advisory total-frame
count is reported as 1 (the count is advisory and can undercount), the
second reported progress value is 2, exceeding 1.0 — the code never
clamps. -/
theorem C5_progress_exceeds_one :
    progress_values 2 1 = [some 1, some 2] ∧ ¬ ((2 : ℚ) ≤ 1) := by
  constructor
  · unfold progress_values update_progress
    norm_num [List.range_succ]
  · norm_num

/-- Claim C5 as amended: when the advisory total equals the number of
readable frames `K > 0`, the reported progress values are defined,
non-decreasing, never exceed 1, and the value reported after the K-th frame
is exactly 1. -/
theorem C5_progress_monotone_clamped (K : Nat) (hK : 0 < K) :
    (∀ i j : Nat, i ≤ j →
      ∀ p q : ℚ, update_progress (i + 1) K = some p →
        update_progress (j + 1) K = some q → p ≤ q)
    ∧ (∀ i : Nat, i < K →
        ∀ p : ℚ, update_progress (i + 1) K = some p → p ≤ 1)
    ∧ update_progress K K = some 1 := by
  have hKne : K ≠ 0 := Nat.pos_iff_ne_zero.mp hK
  have hKq : (0 : ℚ) < (K : ℚ) := by exact_mod_cast hK
  refine ⟨?_, ?_, ?_⟩
  · intro i j hij p q hp hq
    rw [update_progress, if_neg hKne, Option.some_inj] at hp hq
    rw [← hp, ← hq]
    gcongr
  · intro i hi p hp
    rw [update_progress, if_neg hKne, Option.some_inj] at hp
    rw [← hp, div_le_one hKq]
    exact_mod_cast hi
  · rw [update_progress, if_neg hKne, div_self (ne_of_gt hKq)]

/-- Witness for the amended C5 at `K = 2`. -/
theorem C5_witness :
    0 < 2
    ∧ ((∀ i j : Nat, i ≤ j →
        ∀ p q : ℚ, update_progress (i + 1) 2 = some p →
          update_progress (j + 1) 2 = some q → p ≤ q)
      ∧ (∀ i : Nat, i < 2 →
          ∀ p : ℚ, update_progress (i + 1) 2 = some p → p ≤ 1)
      ∧ update_progress 2 2 = some 1) :=
  ⟨by decide, C5_progress_monotone_clamped 2 (by decide)⟩

/-- Claim C6: whenever the external `ffmpeg` invocation is absent
(`FileNotFoundError`) or exits with failure (`CalledProcessError`),
`_convert_to_h264` still returns the expected output path, and the file at
that path is byte-for-byte the pre-transcode intermediate — the request is
degraded, not failed. -/
theorem C6_transcode_degrade_not_fail (fs : FS)
    (ffmpeg : Bytes → TranscodeOutcome) (input_path output_path : String)
    (content : Bytes) (hin : fs input_path = some content)
    (hfail : ffmpeg content = .toolMissing ∨ ffmpeg content = .exitFailure) :
    (convert_to_h264 fs ffmpeg input_path output_path).2 = output_path
    ∧ (convert_to_h264 fs ffmpeg input_path output_path).1 output_path =
        some content := by
  unfold convert_to_h264
  refine ⟨rfl, ?_⟩
  simp only [hin, Option.getD_some]
  rcases hfail with h | h <;> simp [h]

/-- A concrete filesystem holding only the pre-transcode intermediate. -/
def fsStub : FS := fun p => if p = "intermediate.avi" then some [1, 2, 3] else none

/-- Witness for C6: the tool is absent, and the returned output file equals
the intermediate byte-for-byte. -/
theorem C6_witness :
    fsStub "intermediate.avi" = some [1, 2, 3]
    ∧ ((fun _ : Bytes => TranscodeOutcome.toolMissing) [1, 2, 3] =
          TranscodeOutcome.toolMissing
        ∨ (fun _ : Bytes => TranscodeOutcome.toolMissing) [1, 2, 3] =
          TranscodeOutcome.exitFailure)
    ∧ ((convert_to_h264 fsStub (fun _ => TranscodeOutcome.toolMissing)
          "intermediate.avi" "output.mp4").2 = "output.mp4"
      ∧ (convert_to_h264 fsStub (fun _ => TranscodeOutcome.toolMissing)
          "intermediate.avi" "output.mp4").1 "output.mp4" = some [1, 2, 3]) :=
  ⟨by decide, Or.inl rfl,
   C6_transcode_degrade_not_fail fsStub (fun _ => TranscodeOutcome.toolMissing)
     "intermediate.avi" "output.mp4" [1, 2, 3] (by decide) (Or.inl rfl)⟩

/-- Claim C7 counterexample: with two readable frames but an advisory
total-frame count of 0, the drain loop aborts on the first progress update
(`ZeroDivisionError`) — it does not keep reading until frames are
exhausted, and the second frame is never written, so loop behaviour is not
independent of the advisory count. -/
theorem C7_drain_loop_aborts_on_zero_total :
    process_frames predictStub (1/2) none [5, 6] 0 = none := by decide

/-- Generalized drain-loop invariant: with a non-zero advisory count the
loop consumes exactly the readable frames, writes the annotated frame of
input `i` at output position `i`, and folds the per-frame statistics over
the running accumulator. -/
theorem process_frames_go_spec (predict : PredictFn) (confidence : ℚ)
    (classes : Option (List Nat)) (frames : List Frame) (frame_count : Nat)
    (total_frames : Nat) (acc : Stats) (h : total_frames ≠ 0) :
    process_frames_go predict confidence classes frames frame_count
        total_frames acc =
      some (frames.map
          (fun f => (predict f confidence (classesArg classes)).plotted),
        (frames.map (fun f =>
          extract_statistics
            (predict f confidence (classesArg classes)).boxes)).foldl
          merge_statistics acc) := by
  induction frames generalizing frame_count acc with
  | nil => rfl
  | cons f rest ih =>
    show (match update_progress (frame_count + 1) total_frames with
      | none => none
      | some _ =>
        match process_frames_go predict confidence classes rest
            (frame_count + 1) total_frames
            (merge_statistics acc
              (run_inference predict confidence classes f).2) with
        | none => none
        | some (written, final_stats) =>
          some ((run_inference predict confidence classes f).1 :: written,
            final_stats)) = _
    rw [update_progress, if_neg h, ih]
    rfl

/-- Claim C7 as amended: provided the advisory total-frame count is
non-zero (so no progress update raises), the drain loop terminates exactly
when the readable frames are exhausted — independently of the advisory
value — and the output frame sequence is the input sequence mapped through
annotation: position `i` holds the annotated input frame `i`, nothing
dropped, duplicated, or reordered. -/
theorem C7_frame_order_preserved (predict : PredictFn) (confidence : ℚ)
    (classes : Option (List Nat)) (frames : List Frame) (total_frames : Nat)
    (h : total_frames ≠ 0) :
    process_frames predict confidence classes frames total_frames =
      some (frames.map
          (fun f => (predict f confidence (classesArg classes)).plotted),
        cumulative_statistics (frames.map (fun f =>
          extract_statistics
            (predict f confidence (classesArg classes)).boxes))) := by
  unfold process_frames cumulative_statistics
  exact process_frames_go_spec predict confidence classes frames 0
    total_frames [] h

/-- Witness for the amended C7: two frames, accurate advisory count. -/
theorem C7_witness :
    (2 : Nat) ≠ 0
    ∧ process_frames predictStub (1/2) none [5, 6] 2 =
        some (([5, 6] : List Frame).map
            (fun f => (predictStub f (1/2) (classesArg none)).plotted),
          cumulative_statistics (([5, 6] : List Frame).map (fun f =>
            extract_statistics (predictStub f (1/2) (classesArg none)).boxes))) :=
  ⟨by decide, C7_frame_order_preserved predictStub (1/2) none [5, 6] 2 (by decide)⟩

/-- Claim C8: `load_model` is idempotent per path for the lifetime of the
cache: a second call with the same path returns the very handle the first
call produced and leaves the cache state (including the count of
deserialize-and-bind runs) untouched. -/
theorem C8_load_model_cached (env : ModelEnv) (s : CacheState)
    (model_path : String) :
    (load_model env (load_model env s model_path).2 model_path).1 =
      (load_model env s model_path).1
    ∧ (load_model env (load_model env s model_path).2 model_path).2 =
      (load_model env s model_path).2 := by
  unfold load_model
  cases hfind : s.cache.find? (fun p => p.1 == model_path) with
  | some p => simp [hfind]
  | none =>
    have hfind2 :
        (s.cache ++ [(model_path, env.deserialize model_path env.device)]).find?
          (fun p => p.1 == model_path) =
        some (model_path, env.deserialize model_path env.device) := by
      rw [List.find?_append, hfind]
      simp
    simp [hfind, hfind2]

/-- After attempting to delete `p`, paths other than `p` are untouched. -/
theorem cleanup_step_ne (unlinkOk : String → Bool) (fs : FS) (p q : String)
    (h : q ≠ p) : cleanup_step unlinkOk fs p q = fs q := by
  unfold cleanup_step
  cases hfp : fs p
  · rfl
  · by_cases hu : unlinkOk p <;> simp [hu, h]

/-- After attempting to delete `p`, the entry at `p` is gone exactly when
the deletion succeeded; a failed deletion leaves it in place. -/
theorem cleanup_step_self (unlinkOk : String → Bool) (fs : FS) (p : String) :
    cleanup_step unlinkOk fs p p = if unlinkOk p then none else fs p := by
  unfold cleanup_step
  cases hfp : fs p
  · by_cases hu : unlinkOk p <;> simp [hu, hfp]
  · by_cases hu : unlinkOk p <;> simp [hu, hfp]

/-- Claim C9 counterexample: in `VideoDetector.detect` the pre-transcode
intermediate is deleted with a bare `os.unlink` (no `try`/`except`), so
when that deletion fails the whole request aborts instead of succeeding. -/
theorem C9_intermediate_unlink_propagates :
    video_detect_finalize (fun _ => false)
      (fun p => if p = "intermediate.avi" then some [7] else none)
      "intermediate.avi" "output.mp4" = none := by
  unfold video_detect_finalize
  simp

/-- Claim C9 as amended: `_cleanup_temp_files` swallows every deletion
failure — for any set of per-path deletion outcomes it completes, clears
the recorded temp-file list, deletes exactly the listed files whose
deletion succeeds, and leaves every other file (including those whose
deletion failed) untouched.  The unguarded intermediate deletion inside
`VideoDetector.detect` is the one exception (see the counterexample). -/
theorem C9_cleanup_swallows_failures (unlinkOk : String → Bool) (fs : FS)
    (temp_files : List String) :
    (cleanup_temp_files unlinkOk fs temp_files).2 = []
    ∧ ∀ p, (cleanup_temp_files unlinkOk fs temp_files).1 p =
        if p ∈ temp_files ∧ unlinkOk p then none else fs p := by
  refine ⟨rfl, ?_⟩
  intro p
  show (temp_files.foldl (cleanup_step unlinkOk) fs) p = _
  induction temp_files generalizing fs with
  | nil => simp
  | cons q rest ih =>
    rw [List.foldl_cons, ih]
    by_cases hu : unlinkOk p = true
    · by_cases hr : p ∈ rest
      · simp [hr, hu]
      · by_cases hq : q = p
        · subst hq
          rw [cleanup_step_self]
          simp [hr, hu]
        · rw [cleanup_step_ne _ _ _ _ (fun he => hq he.symm)]
          simp only [hr, hu, and_true, or_false, List.mem_cons]
          exact (if_neg (Ne.symm hq)).symm
    · by_cases hq : q = p
      · subst hq
        rw [cleanup_step_self]
        simp [hu]
      · rw [cleanup_step_ne _ _ _ _ (fun he => hq he.symm)]
        simp [hu]

/-- Claim C10: statistics tables are positive-count tables: every entry
`_extract_statistics` produces is strictly positive; a name is a key
exactly when some box resolved to it; and `_merge_statistics` never
decreases an existing count and never introduces a zero-count entry. -/
theorem C10_stats_positive_invariant (boxes : List Box)
    (total frame_stats : Stats) (name : String)
    (ht : ∀ p ∈ total, 0 < p.2) (hf : ∀ p ∈ frame_stats, 0 < p.2) :
    (∀ p ∈ extract_statistics boxes, 0 < p.2)
    ∧ (name ∈ (extract_statistics boxes).map Prod.fst ↔
        ∃ b ∈ boxes, get_class_name b.cls = name)
    ∧ getD total name ≤ getD (merge_statistics total frame_stats) name
    ∧ (∀ p ∈ merge_statistics total frame_stats, 0 < p.2) := by
  refine ⟨pos_extract_statistics boxes, ?_,
    getD_merge_statistics_ge total frame_stats name,
    pos_merge_statistics total frame_stats ht hf⟩
  rw [mem_keys_iff_getD_pos _ (pos_extract_statistics boxes) name,
    getD_extract_statistics]
  simp only [List.countP_pos_iff, beq_iff_eq]

/-- Witness for C10 at concrete tables and boxes. -/
theorem C10_witness :
    (∀ p ∈ ([("Car", 2)] : Stats), 0 < p.2)
    ∧ (∀ p ∈ ([("Car", 1), ("Human", 3)] : Stats), 0 < p.2)
    ∧ ((∀ p ∈ extract_statistics ([⟨0, 1/2⟩, ⟨7, 1/2⟩] : List Box), 0 < p.2)
      ∧ ("Human" ∈ (extract_statistics
            ([⟨0, 1/2⟩, ⟨7, 1/2⟩] : List Box)).map Prod.fst ↔
          ∃ b ∈ ([⟨0, 1/2⟩, ⟨7, 1/2⟩] : List Box),
            get_class_name b.cls = "Human")
      ∧ getD ([("Car", 2)] : Stats) "Human" ≤
          getD (merge_statistics [("Car", 2)] [("Car", 1), ("Human", 3)])
            "Human"
      ∧ (∀ p ∈ merge_statistics [("Car", 2)] [("Car", 1), ("Human", 3)],
          0 < p.2)) :=
  ⟨by decide, by decide,
   C10_stats_positive_invariant ([⟨0, 1/2⟩, ⟨7, 1/2⟩] : List Box)
     [("Car", 2)] [("Car", 1), ("Human", 3)] "Human" (by decide) (by decide)⟩

end YoloApp
